import Mathlib

/-!
Verification of the request-construction / response-rendering pipeline of a
small command-line HTTP client (`src/main.rs`).

The Rust source is shallowly embedded:
* `KvPair.from_str` models `impl FromStr for KvPair` (splitting a CLI token
  on `'='` via `str::split`);
* `post_body` models the `HashMap` built by `post` from the parsed pairs;
* `get_content_type`, `print_status`, `print_headers`, `print_body`,
  `print_syntect` and `print_resp` model the response-rendering functions,
  with terminal output represented as the list of printed lines plus a
  body rendering;
* `parseCommand` / `mainRun` model the pre-flight CLI validation wired
  through the argument framework and `main`'s dispatch.

External collaborators (the `url` and `mime` parsers, the argument
framework's error reporting) are abstracted as explicit oracles or, where
the specification is the only description, modelled from the spec (marked
as such in the doc comment).
-/

/-- Model of Rust `str::split('=')` on the character list of the token:
the list of maximal segments between occurrences of `'='`.  As in Rust,
the result is never empty (`"".split('=')` yields one empty segment, and
a trailing `'='` yields a trailing empty segment). -/
def splitEq : List Char → List (List Char)
  | [] => [[]]
  | c :: cs =>
    if c = '=' then [] :: splitEq cs
    else
      match splitEq cs with
      | s :: rest => (c :: s) :: rest
      | [] => [[c]]

/-- A single parsed `key=value` CLI token (struct `KvPair` in the source). -/
structure KvPair where
  key : String
  value : String
deriving Repr, DecidableEq

/-- Model of `KvPair::from_str`: run `s.split("=")`, take the first two
items of the iterator (`split.next()` twice) as key and value, and fail
with `anyhow!("Failed to parse {}", s)` when the second item is missing.
The first `next()` can never fail because `split` always yields at least
one segment; any segments after the second are dropped, exactly as the
source drops the rest of the iterator. -/
def KvPair.from_str (s : String) : Except String KvPair :=
  match splitEq s.data with
  | k :: v :: _ => Except.ok ⟨String.mk k, String.mk v⟩
  | _ => Except.error ("Failed to parse " ++ s)


theorem splitEq_no_eq (l : List Char) (h : '=' ∉ l) : splitEq l = [l] := by
  induction l with
  | nil => rfl
  | cons c cs ih =>
    have hc : ¬ c = '=' := fun hc => h (hc ▸ List.mem_cons_self c cs)
    have hcs : '=' ∉ cs := fun hm => h (List.mem_cons_of_mem c hm)
    simp [splitEq, hc, ih hcs]

theorem splitEq_head (l : List Char) :
    ∃ rest, splitEq l = l.takeWhile (fun c => !(c = '=' : Bool)) :: rest := by
  induction l with
  | nil => exact ⟨[], rfl⟩
  | cons c cs ih =>
    by_cases hc : c = '='
    · subst hc
      exact ⟨splitEq cs, by simp [splitEq, List.takeWhile]⟩
    · obtain ⟨rest, hr⟩ := ih
      refine ⟨rest, ?_⟩
      simp [splitEq, hc, hr, List.takeWhile]

theorem splitEq_append (k v : List Char) (hk : '=' ∉ k) :
    splitEq (k ++ '=' :: v) = k :: splitEq v := by
  induction k with
  | nil => simp [splitEq]
  | cons c cs ih =>
    have hc : ¬ c = '=' := fun hc => hk (hc ▸ List.mem_cons_self c cs)
    have hcs : '=' ∉ cs := fun hm => hk (List.mem_cons_of_mem c hm)
    obtain ⟨rest, hr⟩ := splitEq_head v
    simp [splitEq, hc, ih hcs, hr]

theorem from_str_split (k v : List Char) (hk : '=' ∉ k) :
    KvPair.from_str (String.mk (k ++ '=' :: v)) =
      Except.ok ⟨String.mk k, String.mk (v.takeWhile (fun c => !(c = '=' : Bool)))⟩ := by
  obtain ⟨rest, hr⟩ := splitEq_head v
  have hd : (String.mk (k ++ '=' :: v)).data = k ++ '=' :: v := rfl
  unfold KvPair.from_str
  rw [hd, splitEq_append k v hk, hr]

/-- Claim C1 (counterexample): on the token `a=b=c` the parser returns the
value `b` — the segment between the first and second `'='` — and not the
full remainder `b=c` claimed by the spec. -/
theorem c1_counterexample :
    KvPair.from_str "a=b=c" = Except.ok ⟨"a", "b"⟩ ∧
    KvPair.from_str "a=b=c" ≠ Except.ok ⟨"a", "b=c"⟩ := by
  refine ⟨rfl, fun h => ?_⟩
  have h2 : (Except.ok (⟨"a", "b"⟩ : KvPair) : Except String KvPair) =
      Except.ok ⟨"a", "b=c"⟩ := h
  simp at h2

/-- Claim C1 (amended): for every token `k=v...` with `'=' ∉ k`, the parser
returns `key = k` and `value` = the segment strictly between the first and
second `'='` of the token (the whole remainder only when it has no further
`'='`); the text from the second `'='` on is dropped. -/
theorem c1_amended (k v : List Char) (hk : '=' ∉ k) :
    KvPair.from_str (String.mk (k ++ '=' :: v)) =
      Except.ok ⟨String.mk k, String.mk (v.takeWhile (fun c => !(c = '=' : Bool)))⟩ :=
  from_str_split k v hk

/-- Witness for `c1_amended` at the token `a=b=c`. -/
theorem c1_amended_witness :
    '=' ∉ ['a'] ∧
    KvPair.from_str (String.mk (['a'] ++ '=' :: ['b', '=', 'c'])) =
      Except.ok ⟨String.mk ['a'],
        String.mk (['b', '=', 'c'].takeWhile (fun c => !(c = '=' : Bool)))⟩ :=
  ⟨by decide, c1_amended ['a'] ['b', '=', 'c'] (by decide)⟩

/-- Claim C7: a token with no `'='` makes the parser fail with the error
message `Failed to parse <token>`, which contains the token verbatim; no
pair is ever returned for such a token. -/
theorem c7_no_separator_fails (s : String) (h : '=' ∉ s.data) :
    KvPair.from_str s = Except.error ("Failed to parse " ++ s) ∧
    (∃ pre, "Failed to parse " ++ s = pre ++ s) ∧
    ∀ p : KvPair, KvPair.from_str s ≠ Except.ok p := by
  have he : KvPair.from_str s = Except.error ("Failed to parse " ++ s) := by
    unfold KvPair.from_str
    rw [splitEq_no_eq s.data h]
  exact ⟨he, ⟨"Failed to parse ", rfl⟩, fun p hp => by rw [he] at hp; exact Except.noConfusion hp⟩

/-- Witness for `c7_no_separator_fails` at the token `abc`. -/
theorem c7_no_separator_fails_witness :
    '=' ∉ ("abc" : String).data ∧
    (KvPair.from_str "abc" = Except.error ("Failed to parse " ++ "abc") ∧
     (∃ pre, "Failed to parse " ++ "abc" = pre ++ "abc") ∧
     ∀ p : KvPair, KvPair.from_str "abc" ≠ Except.ok p) :=
  ⟨by decide, c7_no_separator_fails "abc" (by decide)⟩

/-- Claim C10: a token beginning with `'='` parses successfully: the key is
the empty string and the value is the segment after the first `'='` (up to
the next `'='`, as established for C1); an empty key is not rejected. -/
theorem c10_empty_key_ok (t : List Char) :
    KvPair.from_str (String.mk ('=' :: t)) =
      Except.ok ⟨"", String.mk (t.takeWhile (fun c => !(c = '=' : Bool)))⟩ :=
  from_str_split [] t (by decide)

/-- Model of the `mime` crate's `Mime` type: a parsed media type.  The
crate's `PartialEq` compares type, subtype and the full parameter list
(case-insensitively; parsing lower-cases them, so the model compares the
canonical lower-case forms structurally). -/
structure Mime where
  type_ : String
  subtype : String
  params : List (String × String)
deriving Repr, DecidableEq

/-- The constant `mime::APPLICATION_JSON`: `application/json` with no
parameters. -/
def APPLICATION_JSON : Mime := ⟨"application", "json", []⟩

/-- What the parse of `application/json; charset=utf-8` yields: the same
essence with a `charset` parameter attached. -/
def APPLICATION_JSON_UTF8 : Mime := ⟨"application", "json", [("charset", "utf-8")]⟩

/-- The text a body renderer writes, tagged by which printing routine
produced it: `highlighted` for `print_syntect` (per-line 24-bit color
escapes wrapped around the unchanged text), `plain` for `println!`. -/
inductive BodyRendering where
  | highlighted (text : String)
  | plain (text : String)
deriving Repr, DecidableEq

/-- The text content of a body rendering, with the color escapes (and the
trailing newline `println!` appends) abstracted away. -/
def BodyRendering.textOf : BodyRendering → String
  | highlighted t => t
  | plain t => t

/-- Model of `print_syntect`: the source loads the default syntax set and
theme, then for each line of `s` (`LinesWithEndings`) prints the line's
highlight ranges through `as_24_bit_terminal_escaped`.  The ranges
partition each line, so the printed text content is exactly `s`, line
endings included; no parsing or re-serialization of the body happens. -/
def print_syntect (s : String) (_ext : String) : BodyRendering :=
  BodyRendering.highlighted s

/-- Model of `print_body`: the JSON highlighter runs only when the parsed
mime value compares equal to `mime::APPLICATION_JSON` (`Some(v) if v ==
mime::APPLICATION_JSON`); every other case prints the body verbatim. -/
def print_body (mime : Option Mime) (body : String) : BodyRendering :=
  match mime with
  | some v => if v = APPLICATION_JSON then print_syntect body "json" else BodyRendering.plain body
  | none => BodyRendering.plain body

/-- The renderer's view of a received response: protocol version as its
debug-printed form (e.g. `HTTP/1.1`), status code and canonical reason,
headers in wire order (names in their lower-case wire form), raw body. -/
structure ResponseView where
  version : String
  status : Nat
  reason : String
  headers : List (String × String)
  body : String

/-- One header line of `print_headers`: `{name} => {value:?}` — the
`Debug` form of a (visible-ASCII) header value is the value wrapped in
double quotes. -/
def headerLine (p : String × String) : String := p.1 ++ " => \"" ++ p.2 ++ "\""

/-- Model of `print_status`: `format!("{:?} {}", version, status)` prints
the version then the status code with its canonical reason, and
`println!("{}\n", ..)` leaves a blank line after it (the `.blue()`
coloring is abstracted away). -/
def print_status (r : ResponseView) : List String :=
  [r.version ++ " " ++ (toString r.status ++ " " ++ r.reason), ""]

/-- Model of `print_headers`: one line per header in wire order, then a
blank line (the `.green()` coloring is abstracted away). -/
def print_headers (r : ResponseView) : List String :=
  r.headers.map headerLine ++ [""]

/-- Model of `get_content_type` with the `mime` crate's parser abstracted
as the oracle `parseMime`.  The source maps over the optional
`Content-Type` header with `v.to_str().unwrap().parse().unwrap()`: an
absent header yields `None` (no panic), while a present header whose
value does not parse makes the `unwrap` panic — modelled by the outer
`Option`, where `none` is the panic. -/
def get_content_type (parseMime : String → Option Mime) (r : ResponseView) :
    Option (Option Mime) :=
  match r.headers.find? (fun p => p.1 == "content-type") with
  | none => some none
  | some p =>
    match parseMime p.2 with
    | some m => some (some m)
    | none => none

/-- Model of `print_resp`: status lines, header lines, then the body
rendering chosen from the content type.  A panic inside
`get_content_type` (which in the source fires after the headers are
printed and before the body is) collapses the whole run to `none`. -/
def print_resp (parseMime : String → Option Mime) (r : ResponseView) :
    Option (List String × BodyRendering) :=
  (get_content_type parseMime r).map
    (fun mime => (print_status r ++ print_headers r, print_body mime r.body))

/-- Claim C2 (code bug): a present `Content-Type` header whose value does
not parse as a media type is not recovered as "no content type" — the
`unwrap` in `get_content_type` panics and rendering never completes,
for any parser oracle that rejects the value. -/
theorem c2_malformed_content_type_panics (parseMime : String → Option Mime)
    (h : parseMime "bad-mime" = none) :
    print_resp parseMime
        ⟨"HTTP/1.1", 200, "OK", [("content-type", "bad-mime")], "hello"⟩ = none ∧
    get_content_type parseMime
        ⟨"HTTP/1.1", 200, "OK", [("content-type", "bad-mime")], "hello"⟩ = none := by
  constructor
  · simp [print_resp, get_content_type, h]
  · simp [get_content_type, h]

/-- Witness for `c2_malformed_content_type_panics` with the oracle that
rejects every value (as the `mime` crate rejects `bad-mime`, which has no
slash). -/
theorem c2_malformed_content_type_panics_witness :
    ((fun _ : String => (none : Option Mime)) "bad-mime" = none) ∧
    (print_resp (fun _ => none)
        ⟨"HTTP/1.1", 200, "OK", [("content-type", "bad-mime")], "hello"⟩ = none ∧
     get_content_type (fun _ => none)
        ⟨"HTTP/1.1", 200, "OK", [("content-type", "bad-mime")], "hello"⟩ = none) :=
  ⟨rfl, c2_malformed_content_type_panics (fun _ => none) rfl⟩

/-- Claim C3 (counterexample): with content type `application/json` and the
single-line valid-JSON body `{"x":1}`, the rendered text is exactly the
original single-line body — not serde's indented re-serialization. -/
theorem c3_counterexample :
    (print_body (some APPLICATION_JSON) "\x7b\"x\":1\x7d").textOf = "\x7b\"x\":1\x7d" ∧
    (print_body (some APPLICATION_JSON) "\x7b\"x\":1\x7d").textOf ≠
      "\x7b\n  \"x\": 1\n\x7d" := by
  constructor
  · rfl
  · decide

/-- Claim C3 (amended): for content type exactly `application/json`, the
body is passed to the syntax highlighter with its text unchanged — it is
highlighted but never re-serialized or pretty-printed, so a single-line
body stays a single line. -/
theorem c3_amended (body : String) :
    print_body (some APPLICATION_JSON) body = BodyRendering.highlighted body ∧
    (print_body (some APPLICATION_JSON) body).textOf = body := by
  constructor <;> simp [print_body, print_syntect, BodyRendering.textOf]

/-- Claim C4: with a declared `application/json` content type, rendering a
response never crashes whatever the body is (the formatter never parses
the body as JSON), and the body text is emitted as-is. -/
theorem c4_invalid_json_body_raw (parseMime : String → Option Mime)
    (ctv : String) (h : parseMime ctv = some APPLICATION_JSON)
    (v reason body : String) (code : Nat) :
    ∃ out, print_resp parseMime ⟨v, code, reason, [("content-type", ctv)], body⟩ = some out ∧
      out.2.textOf = body := by
  refine ⟨(print_status ⟨v, code, reason, [("content-type", ctv)], body⟩ ++
      print_headers ⟨v, code, reason, [("content-type", ctv)], body⟩,
      BodyRendering.highlighted body), ?_, rfl⟩
  simp [print_resp, get_content_type, h, print_body, print_syntect]

/-- Witness for `c4_invalid_json_body_raw`: a `200` response declaring
`application/json` whose body `not json` is not valid JSON is rendered,
and its body text comes out verbatim. -/
theorem c4_invalid_json_body_raw_witness :
    ((fun _ : String => some APPLICATION_JSON) "application/json" = some APPLICATION_JSON) ∧
    (∃ out, print_resp (fun _ => some APPLICATION_JSON)
        ⟨"HTTP/1.1", 200, "OK", [("content-type", "application/json")], "not json"⟩ =
          some out ∧ out.2.textOf = "not json") :=
  ⟨rfl, c4_invalid_json_body_raw (fun _ => some APPLICATION_JSON) "application/json" rfl
    "HTTP/1.1" "OK" "not json" 200⟩

/-- Claim C5 (counterexample): `application/json; charset=utf-8` is NOT
formatted the same way as plain `application/json` — the guard compares
the whole mime value, parameters included, so the charset variant falls
through to the verbatim branch while the plain one is highlighted. -/
theorem c5_counterexample :
    print_body (some APPLICATION_JSON_UTF8) "\x7b\"x\":1\x7d" =
      BodyRendering.plain "\x7b\"x\":1\x7d" ∧
    print_body (some APPLICATION_JSON) "\x7b\"x\":1\x7d" =
      BodyRendering.highlighted "\x7b\"x\":1\x7d" ∧
    BodyRendering.plain "\x7b\"x\":1\x7d" ≠
      BodyRendering.highlighted "\x7b\"x\":1\x7d" := by
  refine ⟨?_, rfl, by decide⟩
  have : APPLICATION_JSON_UTF8 ≠ APPLICATION_JSON := by decide
  simp [print_body, this]

/-- Claim C5 (amended): the JSON branch is selected only when the parsed
media type equals `application/json` exactly, with an empty parameter
list; any parameter (such as `charset=utf-8`) defeats the match and the
body is rendered verbatim instead. -/
theorem c5_amended (m : Mime) (body : String) (h : m.params ≠ []) :
    print_body (some m) body = BodyRendering.plain body := by
  have hm : m ≠ APPLICATION_JSON := fun he => h (by rw [he]; rfl)
  simp [print_body, hm]

/-- Witness for `c5_amended` at `application/json; charset=utf-8`. -/
theorem c5_amended_witness :
    APPLICATION_JSON_UTF8.params ≠ [] ∧
    print_body (some APPLICATION_JSON_UTF8) "\x7b\"x\":1\x7d" =
      BodyRendering.plain "\x7b\"x\":1\x7d" :=
  ⟨by decide, c5_amended APPLICATION_JSON_UTF8 "\x7b\"x\":1\x7d" (by decide)⟩

/-- Claim C9: rendering always performs the same steps in the same order,
independently of the status code: the status line
`{version} {code} {reason}`, a blank line, one line per header in wire
order, a blank line (just the blank line when there are no headers), then
the body rendering; a 404 response differs from a 200 response only in
the status-line text. -/
theorem c9_render_structure (parseMime : String → Option Mime) (v reason : String)
    (code : Nat) (hdrs : List (String × String)) (body : String) :
    print_resp parseMime ⟨v, code, reason, hdrs, body⟩ =
      (get_content_type parseMime ⟨v, code, reason, hdrs, body⟩).map
        (fun m => ((v ++ " " ++ (toString code ++ " " ++ reason)) ::
          "" :: (hdrs.map headerLine ++ [""]), print_body m body)) ∧
    (print_resp parseMime ⟨v, 404, reason, hdrs, body⟩).map (fun o => o.1.tail) =
      (print_resp parseMime ⟨v, 200, reason, hdrs, body⟩).map (fun o => o.1.tail) ∧
    (print_resp parseMime ⟨v, 404, reason, hdrs, body⟩).map Prod.snd =
      (print_resp parseMime ⟨v, 200, reason, hdrs, body⟩).map Prod.snd := by
  refine ⟨rfl, ?_, ?_⟩ <;> · simp only [print_resp, Option.map_map]; rfl

/-- Model of `std::collections::HashMap<&String, &String>::insert` on an
association list with unique keys: an existing binding of the key is
overwritten in place, otherwise the binding is appended.  The map's
arbitrary iteration order is determinized by keeping insertion order;
only key multiplicity and the value per key are used by the claims. -/
def hmInsert (m : List (String × String)) (k v : String) : List (String × String) :=
  if m.any (fun p => decide (p.1 = k)) then
    m.map (fun p => if p.1 = k then (k, v) else p)
  else m ++ [(k, v)]

/-- Model of the body-building loop of `post`: fold every parsed pair into
the hash map with `body.insert(&kv.key, &kv.value)`. -/
def post_body (pairs : List KvPair) : List (String × String) :=
  pairs.foldl (fun m kv => hmInsert m kv.key kv.value) []

/-- Lookup in the association-list model of the hash map. -/
def hmLookup (m : List (String × String)) (k : String) : Option String :=
  (m.find? (fun p => decide (p.1 = k))).map Prod.snd

/-- The value of the last pair of the list whose key is `k`, if any
(the spec's "last write wins" reading of the pair sequence). -/
def lastWins : List KvPair → String → Option String
  | [], _ => none
  | kv :: rest, k =>
    match lastWins rest k with
    | some v => some v
    | none => if kv.key = k then some kv.value else none

theorem hmLookup_map_ne (m : List (String × String)) (k v k' : String) (hkk : k ≠ k') :
    hmLookup (m.map (fun p => if p.1 = k then (k, v) else p)) k' = hmLookup m k' := by
  induction m with
  | nil => rfl
  | cons q rest ih =>
    by_cases hq : q.1 = k
    · have h1 : ¬ k = k' := hkk
      have h2 : ¬ q.1 = k' := fun h => hkk (hq ▸ h)
      simp only [List.map_cons, hq, if_pos rfl]
      simp [hmLookup, List.find?_cons, h1, h2] at ih ⊢
      exact ih
    · simp only [List.map_cons, if_neg hq]
      by_cases hq' : q.1 = k'
      · simp [hmLookup, List.find?_cons, hq']
      · simp [hmLookup, List.find?_cons, hq'] at ih ⊢
        exact ih

theorem hmLookup_insert_mem (m : List (String × String)) (k v k' : String)
    (hm : ∃ q ∈ m, q.1 = k) :
    hmLookup (m.map (fun p => if p.1 = k then (k, v) else p)) k' =
      if k = k' then some v else hmLookup m k' := by
  induction m with
  | nil => obtain ⟨q, hq, _⟩ := hm; exact absurd hq (List.not_mem_nil q)
  | cons q rest ih =>
    by_cases hq : q.1 = k
    · by_cases hkk : k = k'
      · subst hkk
        simp [hmLookup, List.map_cons, hq, List.find?_cons]
      · simp only [List.map_cons, hq, if_pos rfl]
        have h2 : ¬ q.1 = k' := fun h => hkk (hq ▸ h)
        simp only [if_neg hkk]
        have := hmLookup_map_ne rest k v k' hkk
        simp [hmLookup, List.find?_cons, hkk, h2] at this ⊢
        exact this
    · have hrest : ∃ q' ∈ rest, q'.1 = k := by
        obtain ⟨q', hq', he⟩ := hm
        rcases List.mem_cons.mp hq' with h | h
        · exact absurd (h ▸ he) hq
        · exact ⟨q', h, he⟩
      by_cases hq' : q.1 = k'
      · have hkk : ¬ k = k' := fun h => hq (h ▸ hq')
        have hkk' : ¬ k' = k := fun h => hkk h.symm
        simp [hmLookup, List.map_cons, if_neg hq, List.find?_cons, hq', hkk, hkk']
      · simp only [List.map_cons, if_neg hq]
        have := ih hrest
        simp [hmLookup, List.find?_cons, hq'] at this ⊢
        exact this

theorem hmLookup_append_new (m : List (String × String)) (k v k' : String)
    (hm : ∀ q ∈ m, q.1 ≠ k) :
    hmLookup (m ++ [(k, v)]) k' = if k = k' then some v else hmLookup m k' := by
  induction m with
  | nil => by_cases h : k = k' <;> simp [hmLookup, List.find?_cons, h]
  | cons q rest ih =>
    have hq : q.1 ≠ k := hm q (List.mem_cons_self q rest)
    by_cases hq' : q.1 = k'
    · have hkk : ¬ k = k' := fun h => hq (h ▸ hq'.symm ▸ rfl)
      simp [hmLookup, List.cons_append, List.find?_cons, hq', hkk]
    · have := ih (fun q' h => hm q' (List.mem_cons_of_mem q h))
      simp only [List.cons_append]
      simp [hmLookup, List.find?_cons, hq'] at this ⊢
      exact this

theorem hmLookup_hmInsert (m : List (String × String)) (k v k' : String) :
    hmLookup (hmInsert m k v) k' = if k = k' then some v else hmLookup m k' := by
  by_cases h : m.any (fun p => decide (p.1 = k)) = true
  · have hm : ∃ q ∈ m, q.1 = k := by
      obtain ⟨q, hq, he⟩ := List.any_eq_true.mp h
      exact ⟨q, hq, of_decide_eq_true he⟩
    rw [hmInsert, if_pos h]
    exact hmLookup_insert_mem m k v k' hm
  · have hm : ∀ q ∈ m, q.1 ≠ k := by
      intro q hq he
      exact h (List.any_eq_true.mpr ⟨q, hq, decide_eq_true he⟩)
    rw [hmInsert, if_neg h]
    exact hmLookup_append_new m k v k' hm

theorem hmLookup_foldl (pairs : List KvPair) :
    ∀ (m : List (String × String)) (k : String),
    hmLookup (pairs.foldl (fun m kv => hmInsert m kv.key kv.value) m) k =
      match lastWins pairs k with
      | some v => some v
      | none => hmLookup m k := by
  induction pairs with
  | nil => intro m k; rfl
  | cons kv rest ih =>
    intro m k
    rw [List.foldl_cons, ih, hmLookup_hmInsert]
    cases hl : lastWins rest k with
    | none => by_cases hk : kv.key = k <;> simp [lastWins, hl, hk]
    | some v => simp [lastWins, hl]

theorem keys_map_replace (m : List (String × String)) (k v : String) :
    (m.map (fun p => if p.1 = k then (k, v) else p)).map Prod.fst = m.map Prod.fst := by
  induction m with
  | nil => rfl
  | cons q rest ih => by_cases hq : q.1 = k <;> simp [hq, ih]

theorem post_keys_nodup (pairs : List KvPair) :
    ∀ m : List (String × String), (m.map Prod.fst).Nodup →
    ((pairs.foldl (fun m kv => hmInsert m kv.key kv.value) m).map Prod.fst).Nodup := by
  induction pairs with
  | nil => intro m h; exact h
  | cons kv rest ih =>
    intro m h
    rw [List.foldl_cons]
    apply ih
    by_cases hany : m.any (fun p => decide (p.1 = kv.key)) = true
    · rw [hmInsert, if_pos hany, keys_map_replace]; exact h
    · have hk : kv.key ∉ m.map Prod.fst := by
        intro hmem
        obtain ⟨q, hq, he⟩ := List.mem_map.mp hmem
        exact hany (List.any_eq_true.mpr ⟨q, hq, decide_eq_true he⟩)
      rw [hmInsert, if_neg hany, List.map_append]
      simp [List.nodup_append, h, hk]

/-- Claim C6: the POST body mapping keeps the last occurrence of every
key (looking a key up in the built body yields the value of the last pair
with that key), every distinct key appears exactly once (the key list of
the built body has no duplicates), and concretely the pairs `a=1 a=2`
serialize to the single-entry object `a ↦ 2`. -/
theorem c6_post_body_last_wins :
    (∀ (pairs : List KvPair) (k : String), hmLookup (post_body pairs) k = lastWins pairs k) ∧
    (∀ pairs : List KvPair, ((post_body pairs).map Prod.fst).Nodup) ∧
    post_body [⟨"a", "1"⟩, ⟨"a", "2"⟩] = [("a", "2")] := by
  refine ⟨?_, ?_, rfl⟩
  · intro pairs k
    rw [post_body, hmLookup_foldl]
    cases hl : lastWins pairs k <;> simp [hmLookup]
  · intro pairs
    exact post_keys_nodup pairs [] (by simp)

/-- The `SubCommand` of the CLI, with the raw tokens exactly as typed
(before any validation): `get <url>` or `post <url> [<key=value> ...]`. -/
inductive RawCommand where
  | get (urlToken : String)
  | post (urlToken : String) (bodyTokens : List String)

/-- The URL token of a raw command. -/
def RawCommand.urlToken : RawCommand → String
  | .get u => u
  | .post u _ => u

/-- A validated invocation (the `Get` / `Post` structs after clap has run
every `try_from_str` validator). -/
inductive ParsedCommand where
  | get (url : String)
  | post (url : String) (body : List KvPair)

/-- An HTTP request as handed to the reqwest client: method and target,
plus the JSON object body for POST (`None` for GET, which the source
never gives a body). -/
structure HttpRequest where
  isPost : Bool
  url : String
  jsonBody : Option (List (String × String))

/-- Model of `parse_url`, with the `url` crate's `Url::parse` abstracted
as the oracle `urlOk`: the token is returned unchanged when it parses,
otherwise the crate's parse error (which does not itself quote the
token) is propagated. -/
def parse_url (urlOk : String → Bool) (s : String) : Except String String :=
  if urlOk s then Except.ok s else Except.error "relative URL without a base"

/-- Model of `parse_kv_pair`: delegate to `KvPair::from_str`. -/
def parse_kv_pair (s : String) : Except String KvPair :=
  KvPair.from_str s

/-- Modelled from the spec: the argument-parsing framework (clap, an
external collaborator not part of `src/`) wraps a failed `try_from_str`
validator into a fatal usage error whose message names the offending
token — "invalid input is rejected before any network activity with a
non-zero exit and a message naming the invalid token". -/
def clapValueError (token : String) (cause : String) : String :=
  "error: Invalid value " ++ token ++ ": " ++ cause

/-- Clap runs `parse_kv_pair` on each body token in order; the first
failure aborts argument parsing with an error naming that token. -/
def parsePairs : List String → Except String (List KvPair)
  | [] => Except.ok []
  | t :: ts =>
    match parse_kv_pair t with
    | Except.error e => Except.error (clapValueError t e)
    | Except.ok kv =>
      match parsePairs ts with
      | Except.error e => Except.error e
      | Except.ok kvs => Except.ok (kv :: kvs)

/-- Model of `Opts::parse` restricted to the declared arguments: validate
the URL token with `parse_url` and (for `post`) every body token with
`parse_kv_pair`, in declaration order, producing a validated command or
the first wrapped validation error. -/
def parseCommand (urlOk : String → Bool) : RawCommand → Except String ParsedCommand
  | .get u =>
    match parse_url urlOk u with
    | Except.error e => Except.error (clapValueError u e)
    | Except.ok u' => Except.ok (.get u')
  | .post u ts =>
    match parse_url urlOk u with
    | Except.error e => Except.error (clapValueError u e)
    | Except.ok u' =>
      match parsePairs ts with
      | Except.error e => Except.error e
      | Except.ok kvs => Except.ok (.post u' kvs)

/-- The request `get` / `post` hand to the reqwest client: GET carries no
body; POST carries the JSON object folded from its pairs. -/
def buildRequest : ParsedCommand → HttpRequest
  | .get u => ⟨false, u, none⟩
  | .post u kvs => ⟨true, u, some (post_body kvs)⟩

/-- Model of `main`: parse the CLI; on a validation error the framework
prints the message and the process exits with a non-zero code before any
client call; otherwise exactly one request is dispatched.  The result
lists the network requests issued and gives the exit code and the error
message, if any (transport is out of scope and modelled as succeeding). -/
def mainRun (urlOk : String → Bool) (cmd : RawCommand) :
    List HttpRequest × Nat × Option String :=
  match parseCommand urlOk cmd with
  | Except.error msg => ([], 2, some msg)
  | Except.ok pc => ([buildRequest pc], 0, none)

/-- Claim C8: when the URL token does not parse, the process exits with a
non-zero code and a message that contains the token verbatim, and no
network request is ever issued; more generally any pre-flight validation
error (URL or pair parsing) yields an empty request list. -/
theorem c8_invalid_url_preflight (urlOk : String → Bool) (cmd : RawCommand)
    (h : urlOk cmd.urlToken = false) :
    (mainRun urlOk cmd).1 = [] ∧
    (mainRun urlOk cmd).2.1 ≠ 0 ∧
    (∃ msg pre post, (mainRun urlOk cmd).2.2 = some msg ∧ msg = pre ++ cmd.urlToken ++ post) ∧
    (∀ (urlOk' : String → Bool) (cmd' : RawCommand) (e : String),
      parseCommand urlOk' cmd' = Except.error e → (mainRun urlOk' cmd').1 = []) := by
  have hmsg : ∀ u c, clapValueError u c = "error: Invalid value " ++ u ++ (": " ++ c) := by
    intro u c
    rw [clapValueError, String.append_assoc]
  have hrun : mainRun urlOk cmd =
      ([], 2, some (clapValueError cmd.urlToken "relative URL without a base")) := by
    cases cmd with
    | get u => simp [mainRun, parseCommand, parse_url, RawCommand.urlToken] at h ⊢; simp [h]
    | post u ts => simp [mainRun, parseCommand, parse_url, RawCommand.urlToken] at h ⊢; simp [h]
  refine ⟨by rw [hrun], by rw [hrun]; simp, ?_, ?_⟩
  · exact ⟨clapValueError cmd.urlToken "relative URL without a base",
      "error: Invalid value ", ": " ++ "relative URL without a base",
      by rw [hrun], by rw [hmsg, String.append_assoc]⟩
  · intro urlOk' cmd' e he
    rw [mainRun, he]

/-- Witness for `c8_invalid_url_preflight`: the invocation
`get notaurl` with a URL oracle rejecting every token. -/
theorem c8_invalid_url_preflight_witness :
    ((fun _ : String => false) (RawCommand.get "notaurl").urlToken = false) ∧
    ((mainRun (fun _ => false) (RawCommand.get "notaurl")).1 = [] ∧
     (mainRun (fun _ => false) (RawCommand.get "notaurl")).2.1 ≠ 0 ∧
     (∃ msg pre post,
        (mainRun (fun _ => false) (RawCommand.get "notaurl")).2.2 = some msg ∧
        msg = pre ++ (RawCommand.get "notaurl").urlToken ++ post) ∧
     (∀ (urlOk' : String → Bool) (cmd' : RawCommand) (e : String),
        parseCommand urlOk' cmd' = Except.error e →
        (mainRun urlOk' cmd').1 = [])) :=
  ⟨rfl, c8_invalid_url_preflight (fun _ => false) (RawCommand.get "notaurl") rfl⟩
